import Mathlib

/-!
Verification of the `light_scraper` Electron main process (job supervisor,
stdout line splitting and event classification, stderr forwarding, argument
construction) and the renderer log utilities (`removeDuplicates`).

The embedding follows the source:
* `startStep` / `stopStep` / `closeStep` / `errorStep` model the
  `start-scraper` and `stop-scraper` IPC handlers and the `close` / `error`
  handlers registered on the spawned child process; the module-level
  `scraperProcess` variable becomes `MainState.scraperProcess`, and the
  promise created by the `start-scraper` handler is tracked per spawned
  process in `MainState.promises`.
* `splitNl` models JavaScript `String.prototype.split('\n')`;
  `mkMsg?` models the per-line body of the `stdout` data handler
  (blank test via `trim`, `startsWith('EVENT:')`, `JSON.parse` failure
  fallback); `processChunk` models one `stdout` `data` callback.
* `stderrStep` models the `stderr` data handler (forwards the whole chunk).
* `buildArgs` models the argument construction in `start-scraper`;
  `buildArgsT` is the same construction with each pushed string tagged by
  its syntactic position in the source (literal flag vs. option value),
  related to `buildArgs` by erasure (`tokStr`).
* `removeDuplicates` models the renderer utility
  `arr.filter((item, i, array) => i === 0 || item !== array[i - 1])`.

`JSON.parse` is host functionality, modelled as an abstract partial parsing
function `p : List Char → Option J`.
-/

/-- JavaScript whitespace as relevant to `String.prototype.trim` on the
ASCII range (space, tab, LF, CR, VT, FF). -/
def isJsWs (c : Char) : Bool :=
  c == ' ' || c == '\t' || c == '\n' || c == '\r' || c == '\x0b' || c == '\x0c'

/-- JavaScript `String.prototype.trim`: strip leading and trailing
whitespace. -/
def trimJs (l : List Char) : List Char :=
  ((l.dropWhile isJsWs).reverse.dropWhile isJsWs).reverse

/-- JavaScript `str.split('\n')` on a character list: the list of
newline-separated segments (empty input gives one empty segment, a trailing
newline gives a trailing empty segment, exactly as in JavaScript). -/
def splitNl : List Char → List (List Char)
  | [] => [[]]
  | c :: cs =>
      if c = '\n' then [] :: splitNl cs
      else (splitNl cs).modifyHead (c :: ·)

/-- A message sent to the renderer: `scraper-event` (parsed payload of type
`J`), `scraper-log` (a stdout log line), or `scraper-error` (stderr text). -/
inductive Msg (J : Type) where
  | event (j : J)
  | log (text : List Char)
  | errLog (text : List Char)
deriving DecidableEq

/-- The per-line body of the stdout `data` handler:
`if (line.trim()) { if (line.startsWith('EVENT:')) { try JSON.parse(line.substring(6)) → event; catch → log(line) } else log(line) }`.
Returns `none` when the line is dropped (blank), otherwise the single
message emitted for this line.  `p` models `JSON.parse` (returning `none` on
a parse error). -/
def mkMsg? {J : Type} (p : List Char → Option J) (line : List Char) : Option (Msg J) :=
  if trimJs line = [] then none
  else if "EVENT:".toList.isPrefixOf line then
    match p (line.drop 6) with
    | some j => some (.event j)
    | none => some (.log line)
  else some (.log line)

/-- One stdout `data` callback: split the chunk on `'\n'` and classify each
resulting line.  There is no carry-over buffer in the source: each chunk is
processed independently. -/
def processChunk {J : Type} (p : List Char → Option J) (chunk : List Char) : List (Msg J) :=
  (splitNl chunk).filterMap (mkMsg? p)

/-- The stderr `data` handler: the whole chunk is forwarded as a single
`scraper-error` message (`data.toString()` sent verbatim, no splitting). -/
def stderrStep {J : Type} (chunk : List Char) : List (Msg J) :=
  [Msg.errLog chunk]

/-- Modelled from the spec, for comparison with `stderrStep`:
"Every chunk of standard-error bytes is split into lines and forwarded as
LogLine tagged `stderr`". -/
def stderrLinesSpec {J : Type} (chunk : List Char) : List (Msg J) :=
  (splitNl chunk).map Msg.errLog

example : splitNl "ab\ncd".toList = ["ab".toList, "cd".toList] := by decide
example : splitNl "a\n".toList = ["a".toList, []] := by decide
example : trimJs "  hi ".toList = "hi".toList := by decide

/-- The `options` object sent over IPC to the `start-scraper` handler.
String-valued fields are `Option String` (`none` = JavaScript `undefined`);
an empty string is falsy in JavaScript, which `truthy` accounts for. -/
structure Options where
  skus : Option String
  skusFile : Option String
  outputDir : Option String
  noImages : Bool
  aiDescriptions : Bool
  noTranslate : Bool
  verbose : Bool
deriving DecidableEq

/-- JavaScript truthiness of an optional string field: `undefined` and the
empty string are falsy, every other string is truthy. -/
def truthy : Option String → Bool
  | none => false
  | some s => s != ""

/-- The argument list built by the `start-scraper` handler.  `dev` is
`process.env.NODE_ENV === 'development'`: in development the list starts as
`['-m', 'src.cli']`, in production it is cleared (`args.length = 0`) before
the remaining pushes, which is modelled as the conditional prefix. -/
def buildArgs (dev : Bool) (o : Options) : List String :=
  (if dev then ["-m", "src.cli"] else [])
  ++ ["--manufacturer", "lodes"]
  ++ (if truthy o.skus then ["--skus", o.skus.getD ""]
      else if truthy o.skusFile then ["--skus-file", o.skusFile.getD ""]
      else [])
  ++ (if truthy o.outputDir then ["--output", o.outputDir.getD ""] else [])
  ++ (if o.noImages then ["--no-images"] else [])
  ++ (if o.aiDescriptions then ["--ai-descriptions"] else [])
  ++ (if o.noTranslate then ["--no-translate"] else [])
  ++ (if o.verbose then ["--verbose"] else [])

/-- An argument token, remembering its syntactic position in the source:
`.flag` for a string literal pushed as a command-line flag, `.value` for a
string taken from an `options` field or a fixed flag argument. -/
inductive Tok where
  | flag (s : String)
  | value (s : String)
deriving DecidableEq

/-- Erase a token back to the plain string that is pushed onto `args`. -/
def tokStr : Tok → String
  | .flag s => s
  | .value s => s

/-- `buildArgs` with each push tagged by `Tok`; erasing the tags recovers
`buildArgs` exactly (`buildArgsT_erase`). -/
def buildArgsT (dev : Bool) (o : Options) : List Tok :=
  (if dev then [Tok.flag "-m", Tok.value "src.cli"] else [])
  ++ [Tok.flag "--manufacturer", Tok.value "lodes"]
  ++ (if truthy o.skus then [Tok.flag "--skus", Tok.value (o.skus.getD "")]
      else if truthy o.skusFile then [Tok.flag "--skus-file", Tok.value (o.skusFile.getD "")]
      else [])
  ++ (if truthy o.outputDir then [Tok.flag "--output", Tok.value (o.outputDir.getD "")] else [])
  ++ (if o.noImages then [Tok.flag "--no-images"] else [])
  ++ (if o.aiDescriptions then [Tok.flag "--ai-descriptions"] else [])
  ++ (if o.noTranslate then [Tok.flag "--no-translate"] else [])
  ++ (if o.verbose then [Tok.flag "--verbose"] else [])

/-- Status of the promise returned by one `start-scraper` call: the handler
resolves it with `{success: true}` only from the child's `close` handler
when the exit code is `0`, rejects it from `close` on any other code, and
rejects it from the child's `error` handler on a spawn failure. -/
inductive PromiseStatus where
  | pending
  | resolvedSuccess
  | rejectedExit (code : Option Int)
  | rejectedSpawnError
deriving DecidableEq

/-- Mutable state of the main process: the module-level `scraperProcess`
variable (a process identity token when a child is live), a counter
generating fresh process tokens, and the promise created by each accepted
`start-scraper` call, keyed by the process token it is tied to. -/
structure MainState where
  scraperProcess : Option Nat
  nextPid : Nat
  promises : List (Nat × PromiseStatus)
deriving DecidableEq

/-- Outcome of one `start-scraper` call as observed by its caller:
either the promise is rejected immediately with `'Scraper is already
running'`, or a child process is spawned with the given argument list and
the handler returns with the call's promise still pending. -/
inductive StartOutcome where
  | alreadyRunning
  | accepted (pid : Nat) (args : List String)
deriving DecidableEq

/-- The `start-scraper` handler: reject immediately when `scraperProcess`
is set; otherwise build the arguments, spawn the child (fresh token), store
it in `scraperProcess`, and register a pending promise for this call. -/
def startStep (dev : Bool) (s : MainState) (o : Options) : StartOutcome × MainState :=
  match s.scraperProcess with
  | some _ => (.alreadyRunning, s)
  | none =>
      (.accepted s.nextPid (buildArgs dev o),
       ⟨some s.nextPid, s.nextPid + 1, s.promises ++ [(s.nextPid, .pending)]⟩)

/-- A sequence of `start-scraper` calls, threading the state and collecting
each call's outcome. -/
def startMany (dev : Bool) (s : MainState) : List Options → List StartOutcome × MainState
  | [] => ([], s)
  | o :: os =>
      let r := startStep dev s o
      let rest := startMany dev r.2 os
      (r.1 :: rest.1, rest.2)

/-- Result of the `stop-scraper` handler: `{success: true}` after killing a
live child, or `{success: false, message: 'No scraper process running'}`. -/
inductive StopResult where
  | stopped
  | notRunning
deriving DecidableEq

/-- The `stop-scraper` handler: if a child is live, kill it and clear
`scraperProcess` (the call's promise is not settled here); otherwise report
`notRunning` and leave the state untouched. -/
def stopStep (s : MainState) : StopResult × MainState :=
  match s.scraperProcess with
  | some _ => (.stopped, { s with scraperProcess := none })
  | none => (.notRunning, s)

/-- Settle the promise keyed by `pid` to status `st`. -/
def settleP (pid : Nat) (st : PromiseStatus) (l : List (Nat × PromiseStatus)) :
    List (Nat × PromiseStatus) :=
  l.map fun e => if e.1 = pid then (pid, st) else e

/-- The `close` handler registered on the child with token `pid`: it sets
the module-level `scraperProcess` to `null` unconditionally and settles its
own call's promise — resolved on exit code `0`, rejected with the code
otherwise (`code` is `null` when the child was killed by a signal). -/
def closeStep (s : MainState) (pid : Nat) (code : Option Int) : MainState :=
  { s with
    scraperProcess := none,
    promises :=
      settleP pid (if code = some 0 then .resolvedSuccess else .rejectedExit code) s.promises }

/-- The `error` handler registered on the child with token `pid` (spawn
failure): clears `scraperProcess` and rejects the call's promise. -/
def errorStep (s : MainState) (pid : Nat) : MainState :=
  { s with scraperProcess := none, promises := settleP pid .rejectedSpawnError s.promises }

/-- The renderer utility
`arr.filter((item, i, array) => i === 0 || item !== array[i - 1])`:
keep an element iff it is at index `0` or differs from the element at the
previous index of the original array. -/
def removeDuplicates {α : Type} [DecidableEq α] (l : List α) : List α :=
  ((l.enum.filter fun p => p.1 == 0 || decide (l.get? (p.1 - 1) ≠ some p.2)).map Prod.snd)

/-! ### Line splitter lemmas -/

theorem splitNl_ne_nil (l : List Char) : splitNl l ≠ [] := by
  induction l with
  | nil => simp [splitNl]
  | cons c cs ih =>
    simp only [splitNl]
    split
    · simp
    · cases h : splitNl cs with
      | nil => exact absurd h ih
      | cons x xs => simp [h, List.modifyHead_cons]

theorem modifyHead_append_left {α : Type} (f : α → α) (l₁ l₂ : List α) (h : l₁ ≠ []) :
    (l₁ ++ l₂).modifyHead f = l₁.modifyHead f ++ l₂ := by
  cases l₁ with
  | nil => exact absurd rfl h
  | cons x xs => simp [List.modifyHead_cons]

/-- JavaScript `split('\n')` distributes over a newline: splitting
`a ++ "\n" ++ b` gives the segments of `a` followed by the segments of
`b`. -/
theorem splitNl_append (a b : List Char) :
    splitNl (a ++ '\n' :: b) = splitNl a ++ splitNl b := by
  induction a with
  | nil => simp [splitNl]
  | cons c cs ih =>
    by_cases hc : c = '\n'
    · subst hc
      simp [splitNl, ih]
    · simp only [List.cons_append, splitNl, if_neg hc, List.append_eq, ih]
      exact modifyHead_append_left _ _ _ (splitNl_ne_nil cs)

theorem mkMsg?_nil {J : Type} (p : List Char → Option J) : mkMsg? p [] = none := rfl

theorem processChunk_nil {J : Type} (p : List Char → Option J) :
    processChunk p [] = [] := rfl

/-- Processing a chunk that ends in a newline followed by more input equals
processing the chunk and the rest separately. -/
theorem processChunk_append {J : Type} (p : List Char → Option J) (a b : List Char) :
    processChunk p (a ++ '\n' :: b) = processChunk p a ++ processChunk p b := by
  simp [processChunk, splitNl_append, List.filterMap_append]

example : removeDuplicates ["a", "a", "b", "b", "c"] = ["a", "b", "c"] := by decide
example : removeDuplicates ["a", "b", "a", "c"] = ["a", "b", "a", "c"] := by decide
example : removeDuplicates ([] : List Nat) = [] := by decide
example : removeDuplicates [1, 1, 2, 3, 3, 3, 4] = [1, 2, 3, 4] := by decide

/-! ### removeDuplicates lemmas -/

/-- Helper characterizing the tail of `removeDuplicates`: keep `y` iff it
differs from the element at the previous index of the original array. -/
def keepAfter {α : Type} [DecidableEq α] (prev : α) : List α → List α
  | [] => []
  | y :: ys => if y = prev then keepAfter y ys else y :: keepAfter y ys

theorem keepAfter_tail {α : Type} [DecidableEq α] :
    ∀ (xs : List α) (x : α),
      ((xs.enum.filter fun p => decide ((x :: xs).get? p.1 ≠ some p.2)).map Prod.snd)
        = keepAfter x xs := by
  intro xs
  induction xs with
  | nil => intro x; rfl
  | cons y ys ih =>
    intro x
    have hcomp :
        ((fun p => decide ((x :: y :: ys).get? p.1 ≠ some p.2)) ∘ Prod.map (· + 1) id)
          = (fun p : Nat × α => decide ((y :: ys).get? p.1 ≠ some p.2)) := by
      funext p
      rfl
    have hsnd : (Prod.snd ∘ Prod.map (· + 1) (@id α)) = Prod.snd := by
      funext p
      rfl
    rw [show keepAfter x (y :: ys)
        = if y = x then keepAfter y ys else y :: keepAfter y ys from rfl]
    rw [List.enum_cons']
    simp only [List.filter_cons, List.filter_map, hcomp, apply_ite (List.map Prod.snd),
      List.map_cons, List.map_map, hsnd, ih y]
    by_cases hxy : y = x
    · subst hxy
      simp
    · have hx : (x :: y :: ys).get? 0 ≠ some y := by
        simp only [List.get?]
        exact fun h => hxy (Option.some_injective _ h).symm
      simp only [hx, hxy, decide_not, if_neg]
      simp [hx, hxy]

theorem removeDuplicates_nil {α : Type} [DecidableEq α] :
    removeDuplicates ([] : List α) = [] := rfl

theorem removeDuplicates_cons {α : Type} [DecidableEq α] (x : α) (xs : List α) :
    removeDuplicates (x :: xs) = x :: keepAfter x xs := by
  unfold removeDuplicates
  have hcomp :
      ((fun p => p.1 == 0 || decide ((x :: xs).get? (p.1 - 1) ≠ some p.2))
          ∘ Prod.map (· + 1) id)
        = (fun p : Nat × α => decide ((x :: xs).get? p.1 ≠ some p.2)) := by
    funext p
    rfl
  have hsnd : (Prod.snd ∘ Prod.map (· + 1) (@id α)) = Prod.snd := by
    funext p
    rfl
  rw [List.enum_cons', List.filter_cons_of_pos (by rfl), List.map_cons,
    List.filter_map, hcomp, List.map_map, hsnd, keepAfter_tail xs x]

/-- `removeDuplicates` is the canonical adjacent-deduplication: it equals
`List.destutter (· ≠ ·)`, which keeps the first element of every run. -/
theorem removeDuplicates_eq_destutter {α : Type} [DecidableEq α] (l : List α) :
    removeDuplicates l = l.destutter (· ≠ ·) := by
  cases l with
  | nil => rfl
  | cons x xs =>
    rw [removeDuplicates_cons, List.destutter_cons']
    induction xs generalizing x with
    | nil => rfl
    | cons y ys ih =>
      rw [List.destutter'_cons]
      by_cases hxy : y = x
      · subst hxy
        rw [if_neg (by simp), ← ih y]
        show y :: keepAfter y (y :: ys) = y :: keepAfter y ys
        rw [show keepAfter y (y :: ys) = if y = y then keepAfter y ys
            else y :: keepAfter y ys from rfl, if_pos rfl]
      · rw [if_pos (fun h => hxy h.symm), ← ih y]
        show x :: keepAfter x (y :: ys) = x :: y :: keepAfter y ys
        rw [show keepAfter x (y :: ys) = if y = x then keepAfter y ys
            else y :: keepAfter y ys from rfl, if_neg hxy]

/-- C10.  `removeDuplicates` removes exactly the adjacent repeats: its
output has no two consecutive equal elements, it is a sublist of the
input, it equals `List.destutter (· ≠ ·)` (keeping the first element of
every run of equal elements), it preserves the head, and it is
idempotent. -/
theorem removeDuplicates_adjacent_props {α : Type} [DecidableEq α] (l : List α) :
    (removeDuplicates l).Chain' (· ≠ ·)
    ∧ List.Sublist (removeDuplicates l) l
    ∧ removeDuplicates l = l.destutter (· ≠ ·)
    ∧ (removeDuplicates l).head? = l.head?
    ∧ removeDuplicates (removeDuplicates l) = removeDuplicates l := by
  refine ⟨?_, ?_, removeDuplicates_eq_destutter l, ?_, ?_⟩
  · rw [removeDuplicates_eq_destutter]
    exact List.destutter_is_chain' _ _
  · rw [removeDuplicates_eq_destutter]
    exact List.destutter_sublist _ _
  · cases l with
    | nil => rfl
    | cons x xs => rw [removeDuplicates_cons]; rfl
  · rw [removeDuplicates_eq_destutter, removeDuplicates_eq_destutter]
    exact List.destutter_idem l (· ≠ ·)

/-- A trivially failing parse function (stands for `JSON.parse` on inputs
that are not valid JSON), used to instantiate concrete scenarios. -/
def pNone : List Char → Option Unit := fun _ => none

/-- A line whose first character is not whitespace does not trim to the
empty string. -/
theorem trimJs_cons_ne_nil {c : Char} (t : List Char) (h : isJsWs c = false) :
    trimJs (c :: t) ≠ [] := by
  intro hnil
  unfold trimJs at hnil
  rw [List.dropWhile_cons, if_neg (by simp [h])] at hnil
  rw [List.reverse_eq_nil_iff, List.dropWhile_eq_nil_iff] at hnil
  have hc : c ∈ (c :: t).reverse := by simp
  exact absurd (hnil c hc) (by simp [h])

/-- Chunk-by-chunk processing of a newline-aligned chunking agrees with
processing the whole concatenated stream at once. -/
theorem processChunks_flatten {J : Type} (p : List Char → Option J) :
    ∀ (chunks : List (List Char)),
      (chunks.all fun c => c.isEmpty || c.getLast? == some '\n') = true →
      (chunks.map (processChunk p)).flatten = processChunk p chunks.flatten := by
  intro chunks
  induction chunks with
  | nil => intro _; simp [processChunk_nil]
  | cons c cs ih =>
    intro h
    rw [List.all_cons, Bool.and_eq_true] at h
    obtain ⟨hc, hcs⟩ := h
    rw [List.map_cons, List.flatten_cons, List.flatten_cons, ih hcs]
    rcases Bool.or_eq_true _ _ |>.mp hc with hce | hlast
    · rw [List.isEmpty_iff.mp hce]
      simp [processChunk_nil]
    · obtain ⟨c', rfl⟩ := List.getLast?_eq_some_iff.mp (beq_iff_eq.mp hlast)
      have h1 : c' ++ ['\n'] ++ cs.flatten = c' ++ '\n' :: cs.flatten := by simp
      have h2 : processChunk p (c' ++ ['\n']) = processChunk p c' := by
        have : (c' ++ ['\n'] : List Char) = c' ++ '\n' :: [] := rfl
        rw [this, processChunk_append, processChunk_nil, List.append_nil]
      rw [h1, h2, processChunk_append]

/-- C4, amended part.  The Line Splitter has no carry-over buffer, so full
chunk-boundary independence fails; what does hold is independence across
newline-aligned chunkings: any two chunkings of the same stream in which
every chunk is empty or ends with a newline produce the same message
sequence. -/
theorem chunking_newline_aligned_eq {J : Type} (p : List Char → Option J)
    (A B : List (List Char))
    (hA : (A.all fun c => c.isEmpty || c.getLast? == some '\n') = true)
    (hB : (B.all fun c => c.isEmpty || c.getLast? == some '\n') = true)
    (hjoin : A.flatten = B.flatten) :
    (A.map (processChunk p)).flatten = (B.map (processChunk p)).flatten := by
  rw [processChunks_flatten p A hA, processChunks_flatten p B hB, hjoin]

/-- Witness for `chunking_newline_aligned_eq` at a concrete chunking. -/
theorem chunking_newline_aligned_eq_w :
    ((["hi\n".toList, "ab\n".toList].all fun c => c.isEmpty || c.getLast? == some '\n') = true)
    ∧ ((["hi\nab\n".toList].all fun c => c.isEmpty || c.getLast? == some '\n') = true)
    ∧ (["hi\n".toList, "ab\n".toList].map (processChunk pNone)).flatten
        = ([("hi\nab\n".toList)].map (processChunk pNone)).flatten :=
  ⟨by decide, by decide,
   chunking_newline_aligned_eq pNone ["hi\n".toList, "ab\n".toList] ["hi\nab\n".toList]
     (by decide) (by decide) (by decide)⟩

/-- C4, counterexample.  Two chunkings of the same byte stream `"hi\n"`
(whole, versus split in the middle of the line) produce different message
sequences: the split chunking emits the two partial lines `"h"` and `"i"`
because each chunk is split independently, with no carry-over buffer. -/
theorem chunking_dependence_cex :
    (["hi\n".toList].flatten = ["h".toList, "i\n".toList].flatten)
    ∧ (["hi\n".toList].map (processChunk pNone)).flatten = [Msg.log "hi".toList]
    ∧ (["h".toList, "i\n".toList].map (processChunk pNone)).flatten
        = [Msg.log "h".toList, Msg.log "i".toList]
    ∧ (["hi\n".toList].map (processChunk pNone)).flatten
        ≠ (["h".toList, "i\n".toList].map (processChunk pNone)).flatten := by
  refine ⟨by decide, by decide, by decide, by decide⟩

/-- C5.  A complete stdout line that starts with the `EVENT:` marker but
whose remainder fails to parse as JSON is forwarded as exactly one plain
log message whose text is the original full line, marker included; no
error is produced. -/
theorem event_bad_json_logline {J : Type} (p : List Char → Option J) (line : List Char)
    (hpre : "EVENT:".toList.isPrefixOf line = true)
    (hfail : p (line.drop 6) = none) :
    mkMsg? p line = some (Msg.log line) := by
  have hne : trimJs line ≠ [] := by
    obtain ⟨t, rfl⟩ := List.isPrefixOf_iff_prefix.mp hpre
    exact trimJs_cons_ne_nil ("VENT:".toList ++ t) (by decide)
  simp [mkMsg?, hne, hpre, hfail]

/-- Witness for `event_bad_json_logline` on a concrete malformed line. -/
theorem event_bad_json_logline_w :
    ("EVENT:".toList.isPrefixOf "EVENT:oops".toList = true)
    ∧ (pNone ("EVENT:oops".toList.drop 6) = none)
    ∧ mkMsg? pNone "EVENT:oops".toList = some (Msg.log "EVENT:oops".toList) :=
  ⟨by decide, rfl,
   event_bad_json_logline pNone "EVENT:oops".toList (by decide) rfl⟩

/-- C7, amended part.  A complete stdout line not starting with the
`EVENT:` marker is dropped when it is blank or whitespace-only, and is
otherwise forwarded as exactly one plain log message whose text is the
line itself, untrimmed. -/
theorem classifier_plain_line {J : Type} (p : List Char → Option J) (line : List Char)
    (hpre : "EVENT:".toList.isPrefixOf line = false) :
    (trimJs line = [] → mkMsg? p line = none)
    ∧ (trimJs line ≠ [] → mkMsg? p line = some (Msg.log line)) := by
  constructor
  · intro hblank
    unfold mkMsg?
    rw [if_pos hblank]
  · intro hnb
    unfold mkMsg?
    rw [if_neg hnb, hpre]
    simp

/-- Witness for `classifier_plain_line`: a blank line, and a non-blank
line. -/
theorem classifier_plain_line_w :
    ("EVENT:".toList.isPrefixOf "  ".toList = false)
    ∧ (trimJs "  ".toList = [])
    ∧ mkMsg? pNone "  ".toList = none
    ∧ ("EVENT:".toList.isPrefixOf " hi".toList = false)
    ∧ (trimJs " hi".toList ≠ [])
    ∧ mkMsg? pNone " hi".toList = some (Msg.log " hi".toList) :=
  ⟨by decide, by decide,
   (classifier_plain_line pNone "  ".toList (by decide)).1 (by decide),
   by decide, by decide,
   (classifier_plain_line pNone " hi".toList (by decide)).2 (by decide)⟩

/-- C7, counterexample.  The classifier forwards a non-blank, non-marker
line untrimmed: for the line `" hi"` it emits `" hi"`, not the trimmed
`"hi"` the claim requires. -/
theorem classifier_untrimmed_cex :
    mkMsg? pNone " hi".toList = some (Msg.log " hi".toList)
    ∧ trimJs " hi".toList = "hi".toList
    ∧ mkMsg? pNone " hi".toList ≠ some (Msg.log (trimJs " hi".toList)) := by
  refine ⟨by decide, by decide, by decide⟩

/-- C6, amended part.  Every stderr chunk is forwarded as a single
stderr-tagged log message containing the whole chunk verbatim (it is not
split into lines), and stderr is never classified: no structured event can
ever originate from stderr, whatever the chunk contains. -/
theorem stderr_whole_chunk_forwarded {J : Type} (chunk : List Char) :
    stderrStep (J := J) chunk = [Msg.errLog chunk]
    ∧ ∀ j : J, Msg.event j ∉ stderrStep (J := J) chunk := by
  refine ⟨rfl, fun j hj => ?_⟩
  simp [stderrStep] at hj

/-! ### Supervisor lemmas -/

/-- While a child is live, every `start-scraper` call is rejected with the
already-running error and leaves the state untouched. -/
theorem startMany_of_live (dev : Bool) (os : List Options) :
    ∀ (s : MainState) (pid : Nat), s.scraperProcess = some pid →
      startMany dev s os = (os.map fun _ => StartOutcome.alreadyRunning, s) := by
  induction os with
  | nil => intro s pid _; rfl
  | cons o os ih =>
    intro s pid h
    have hs : startStep dev s o = (.alreadyRunning, s) := by
      unfold startStep
      rw [h]
    simp [startMany, hs, ih s pid h]

/-- C1.  From an idle state the first `start-scraper` call is accepted and
spawns a child; every subsequent call in an uninterrupted sequence of
start calls (no exit, spawn error, or stop in between) is rejected with
the already-running error, no further child is spawned, and the state —
live handle, token counter, and the first call's pending promise — is
exactly the state left by the first call. -/
theorem start_already_running_exclusion (dev : Bool) (s : MainState) (o : Options)
    (os : List Options) (h : s.scraperProcess = none) :
    (startStep dev s o).1 = .accepted s.nextPid (buildArgs dev o)
    ∧ (startStep dev s o).2.scraperProcess = some s.nextPid
    ∧ (startStep dev s o).2.promises = s.promises ++ [(s.nextPid, .pending)]
    ∧ (startMany dev (startStep dev s o).2 os).1
        = os.map (fun _ => StartOutcome.alreadyRunning)
    ∧ (startMany dev (startStep dev s o).2 os).2 = (startStep dev s o).2 := by
  have hs : startStep dev s o
      = (.accepted s.nextPid (buildArgs dev o),
         ⟨some s.nextPid, s.nextPid + 1, s.promises ++ [(s.nextPid, .pending)]⟩) := by
    unfold startStep
    rw [h]
  rw [hs]
  have hall := startMany_of_live dev os
    ⟨some s.nextPid, s.nextPid + 1, s.promises ++ [(s.nextPid, .pending)]⟩ s.nextPid rfl
  rw [hall]
  exact ⟨rfl, rfl, rfl, rfl, rfl⟩

/-- Witness for `start_already_running_exclusion`: one accepted start
followed by two rejected ones. -/
theorem start_already_running_exclusion_w :
    ((⟨none, 0, []⟩ : MainState).scraperProcess = none)
    ∧ (startStep true ⟨none, 0, []⟩ ⟨some "kelly", none, none, false, false, false, false⟩).1
        = .accepted 0 ["-m", "src.cli", "--manufacturer", "lodes", "--skus", "kelly"]
    ∧ (startMany true
        (startStep true ⟨none, 0, []⟩ ⟨some "kelly", none, none, false, false, false, false⟩).2
        [⟨some "x", none, none, false, false, false, false⟩,
         ⟨none, some "f.txt", none, true, false, false, false⟩]).1
        = [StartOutcome.alreadyRunning, StartOutcome.alreadyRunning]
    ∧ (startMany true
        (startStep true ⟨none, 0, []⟩ ⟨some "kelly", none, none, false, false, false, false⟩).2
        [⟨some "x", none, none, false, false, false, false⟩,
         ⟨none, some "f.txt", none, true, false, false, false⟩]).2
        = (startStep true ⟨none, 0, []⟩ ⟨some "kelly", none, none, false, false, false, false⟩).2 := by
  refine ⟨rfl, ?_, ?_, ?_⟩
  · exact (start_already_running_exclusion true ⟨none, 0, []⟩
      ⟨some "kelly", none, none, false, false, false, false⟩ [] rfl).1
  · exact (start_already_running_exclusion true ⟨none, 0, []⟩
      ⟨some "kelly", none, none, false, false, false, false⟩
      [⟨some "x", none, none, false, false, false, false⟩,
       ⟨none, some "f.txt", none, true, false, false, false⟩] rfl).2.2.2.1
  · exact (start_already_running_exclusion true ⟨none, 0, []⟩
      ⟨some "kelly", none, none, false, false, false, false⟩
      [⟨some "x", none, none, false, false, false, false⟩,
       ⟨none, some "f.txt", none, true, false, false, false⟩] rfl).2.2.2.2

/-- C8.  `stop-scraper` called with no live child returns the
`notRunning` result (`{success: false, message: 'No scraper process
running'}`) and leaves the whole state unchanged; called with a live
child it returns `stopped`, clears the handle, and an immediately
following second call returns `notRunning` and again changes nothing. -/
theorem stop_idempotent_notrunning (s : MainState) :
    (s.scraperProcess = none → stopStep s = (.notRunning, s))
    ∧ (∀ pid : Nat, s.scraperProcess = some pid →
         (stopStep s).1 = .stopped
         ∧ (stopStep s).2.scraperProcess = none
         ∧ stopStep (stopStep s).2 = (.notRunning, (stopStep s).2)) := by
  constructor
  · intro h
    unfold stopStep
    rw [h]
  · intro pid h
    have hs : stopStep s = (.stopped, { s with scraperProcess := none }) := by
      unfold stopStep
      rw [h]
    rw [hs]
    exact ⟨rfl, rfl, rfl⟩

/-- Witness for `stop_idempotent_notrunning`: stop when idle, and a
stop-stop pair after a running job. -/
theorem stop_idempotent_notrunning_w :
    stopStep ⟨none, 3, []⟩ = (.notRunning, ⟨none, 3, []⟩)
    ∧ (stopStep ⟨some 5, 6, [(5, .pending)]⟩).1 = .stopped
    ∧ stopStep (stopStep ⟨some 5, 6, [(5, .pending)]⟩).2
        = (.notRunning, (stopStep ⟨some 5, 6, [(5, .pending)]⟩).2) :=
  ⟨(stop_idempotent_notrunning ⟨none, 3, []⟩).1 rfl,
   ((stop_idempotent_notrunning ⟨some 5, 6, [(5, .pending)]⟩).2 5 rfl).1,
   ((stop_idempotent_notrunning ⟨some 5, 6, [(5, .pending)]⟩).2 5 rfl).2.2⟩

/-- A concrete `options` value with an inline SKU list. -/
def optsK : Options := ⟨some "kelly", none, none, false, false, false, false⟩

/-- A concrete `options` value with neither `skus` nor `skusFile`. -/
def optsEmptyInput : Options := ⟨none, none, none, false, false, false, false⟩

/-- The initial main-process state: no live child, no promises. -/
def initMain : MainState := ⟨none, 0, []⟩

/-- Look up the promise registered for process token `k`. -/
def promLookup (k : Nat) : List (Nat × PromiseStatus) → Option PromiseStatus
  | [] => none
  | (a, v) :: t => if a = k then some v else promLookup k t

theorem promLookup_append_single (k : Nat) (v : PromiseStatus) :
    ∀ l : List (Nat × PromiseStatus),
      promLookup k l = none → promLookup k (l ++ [(k, v)]) = some v := by
  intro l
  induction l with
  | nil => intro _; simp [promLookup]
  | cons e t ih =>
    intro h
    obtain ⟨a, b⟩ := e
    by_cases hak : a = k
    · simp [promLookup, hak] at h
    · simp only [promLookup, if_neg hak, List.cons_append] at h ⊢
      exact ih h

theorem promLookup_settleP (k : Nat) (st : PromiseStatus) :
    ∀ (l : List (Nat × PromiseStatus)) (x : PromiseStatus),
      promLookup k l = some x → promLookup k (settleP k st l) = some st := by
  intro l
  induction l with
  | nil => intro x h; simp [promLookup] at h
  | cons e t ih =>
    intro x h
    obtain ⟨a, b⟩ := e
    by_cases hak : a = k
    · subst hak
      show promLookup a ((if a = a then (a, st) else (a, b)) :: settleP a st t) = some st
      rw [if_pos rfl]
      show (if a = a then some st else promLookup a (settleP a st t)) = some st
      rw [if_pos rfl]
    · have h' : promLookup k t = some x := by
        simpa [promLookup, hak] using h
      show promLookup k ((if a = k then (k, st) else (a, b)) :: settleP k st t) = some st
      rw [if_neg hak]
      show (if a = k then some b else promLookup k (settleP k st t)) = some st
      rw [if_neg hak]
      exact ih x h'

theorem tok_mem_ite {x : Tok} {c : Prop} [Decidable c] {l₁ l₂ : List Tok} :
    x ∈ (if c then l₁ else l₂) ↔ (c ∧ x ∈ l₁) ∨ (¬c ∧ x ∈ l₂) := by
  split_ifs with h <;> simp [h]

/-- C3, amended part.  An accepted `start-scraper` call returns to its
caller with its promise still pending (spawn issued, no settlement), and
that promise settles only through the child's terminal events: the
`close` handler resolves it on exit code `0` and rejects it with the code
otherwise, and the `error` (spawn-failure) handler rejects it.  Only the
already-running case settles synchronously (`start_already_running_exclusion`). -/
theorem start_promise_settles_on_exit (dev : Bool) (s : MainState) (o : Options)
    (h : s.scraperProcess = none) (hf : promLookup s.nextPid s.promises = none) :
    (promLookup s.nextPid (startStep dev s o).2.promises = some .pending)
    ∧ (∀ code : Option Int,
        promLookup s.nextPid (closeStep (startStep dev s o).2 s.nextPid code).promises
          = some (if code = some 0 then .resolvedSuccess else .rejectedExit code))
    ∧ promLookup s.nextPid (errorStep (startStep dev s o).2 s.nextPid).promises
        = some .rejectedSpawnError := by
  have hs : (startStep dev s o).2.promises = s.promises ++ [(s.nextPid, .pending)] := by
    unfold startStep
    rw [h]
  have hpend : promLookup s.nextPid (startStep dev s o).2.promises = some .pending := by
    rw [hs]
    exact promLookup_append_single _ _ _ hf
  refine ⟨hpend, fun code => ?_, ?_⟩
  · exact promLookup_settleP _ _ _ _ hpend
  · exact promLookup_settleP _ _ _ _ hpend

/-- Witness for `start_promise_settles_on_exit` on a concrete run. -/
theorem start_promise_settles_on_exit_w :
    (initMain.scraperProcess = none)
    ∧ (promLookup initMain.nextPid initMain.promises = none)
    ∧ (promLookup 0 (startStep true initMain optsK).2.promises = some .pending)
    ∧ (promLookup 0 (closeStep (startStep true initMain optsK).2 0 (some 0)).promises
        = some .resolvedSuccess)
    ∧ (promLookup 0 (errorStep (startStep true initMain optsK).2 0).promises
        = some .rejectedSpawnError) :=
  ⟨rfl, rfl,
   (start_promise_settles_on_exit true initMain optsK rfl rfl).1,
   (start_promise_settles_on_exit true initMain optsK rfl rfl).2.1 (some 0),
   (start_promise_settles_on_exit true initMain optsK rfl rfl).2.2⟩

/-- C3, counterexample.  The `start-scraper` call does not complete when
the spawn is issued: right after the accepted call returns (child spawned,
handle live) its promise is still `pending`, and it becomes settled only
when the child's `close` event fires — worker exit is reported as the
completion of the start call itself. -/
theorem start_promise_settles_on_exit_cex :
    (startStep true initMain optsK).1
      = .accepted 0 ["-m", "src.cli", "--manufacturer", "lodes", "--skus", "kelly"]
    ∧ (startStep true initMain optsK).2.scraperProcess = some 0
    ∧ (startStep true initMain optsK).2.promises = [(0, .pending)]
    ∧ (closeStep (startStep true initMain optsK).2 0 (some 0)).promises
        = [(0, .resolvedSuccess)]
    ∧ (PromiseStatus.pending ≠ .resolvedSuccess) := by
  refine ⟨rfl, rfl, rfl, rfl, by decide⟩

/-- C2, counterexample.  The `start-scraper` handler performs no input
validation: with neither `skus` nor `skusFile` set it still accepts the
call and spawns the worker (the argument list simply contains neither
input flag), instead of returning a configuration error without
spawning. -/
theorem start_no_validation_cex :
    (startStep true initMain optsEmptyInput).1
      = .accepted 0 ["-m", "src.cli", "--manufacturer", "lodes"]
    ∧ (startStep true initMain optsEmptyInput).2.scraperProcess = some 0 := by
  refine ⟨rfl, rfl⟩

/-- C2, amended part.  When neither the inline list nor the file path is
set, `start-scraper` (from idle) still accepts and spawns; the built
argument list contains neither the `--skus` flag nor the `--skus-file`
flag.  Input validation exists only in the UI layer, before `start` is
invoked. -/
theorem start_no_validation_amended (dev : Bool) (s : MainState) (o : Options)
    (h : s.scraperProcess = none)
    (h1 : truthy o.skus = false) (h2 : truthy o.skusFile = false) :
    (startStep dev s o).1 = .accepted s.nextPid (buildArgs dev o)
    ∧ Tok.flag "--skus" ∉ buildArgsT dev o
    ∧ Tok.flag "--skus-file" ∉ buildArgsT dev o := by
  refine ⟨by unfold startStep; rw [h], ?_, ?_⟩
  · simp [buildArgsT, h1, h2, List.mem_append, tok_mem_ite]
  · simp [buildArgsT, h1, h2, List.mem_append, tok_mem_ite]

/-- Witness for `start_no_validation_amended` at the empty configuration. -/
theorem start_no_validation_amended_w :
    (initMain.scraperProcess = none)
    ∧ (truthy optsEmptyInput.skus = false)
    ∧ (truthy optsEmptyInput.skusFile = false)
    ∧ (startStep true initMain optsEmptyInput).1 = .accepted 0 (buildArgs true optsEmptyInput)
    ∧ Tok.flag "--skus" ∉ buildArgsT true optsEmptyInput
    ∧ Tok.flag "--skus-file" ∉ buildArgsT true optsEmptyInput :=
  ⟨rfl, rfl, rfl,
   (start_no_validation_amended true initMain optsEmptyInput rfl rfl rfl).1,
   (start_no_validation_amended true initMain optsEmptyInput rfl rfl rfl).2.1,
   (start_no_validation_amended true initMain optsEmptyInput rfl rfl rfl).2.2⟩

/-- C9.  Tagged and untagged argument construction agree (erasing the
tags of `buildArgsT` yields exactly `buildArgs`); the argument list never
contains both input-mode flags as flags; and when both `skus` and
`skusFile` are set, only the inline `--skus` flag is emitted — inline
input takes precedence over the file path. -/
theorem args_input_flags_exclusive (dev : Bool) (o : Options) :
    (buildArgsT dev o).map tokStr = buildArgs dev o
    ∧ ¬(Tok.flag "--skus" ∈ buildArgsT dev o ∧ Tok.flag "--skus-file" ∈ buildArgsT dev o)
    ∧ (truthy o.skus = true → truthy o.skusFile = true →
        Tok.flag "--skus" ∈ buildArgsT dev o ∧ Tok.flag "--skus-file" ∉ buildArgsT dev o) := by
  refine ⟨?_, ?_, ?_⟩
  · simp only [buildArgsT, buildArgs, List.map_append, apply_ite (List.map tokStr),
      List.map_cons, List.map_nil, tokStr]
  · cases hskus : truthy o.skus
    · simp [buildArgsT, hskus, List.mem_append, tok_mem_ite]
    · simp [buildArgsT, hskus, List.mem_append, tok_mem_ite]
  · intro hskus hfile
    constructor
    · simp [buildArgsT, hskus, List.mem_append, tok_mem_ite]
    · simp [buildArgsT, hskus, List.mem_append, tok_mem_ite]

/-- Witness for `args_input_flags_exclusive` with both input modes set. -/
theorem args_input_flags_exclusive_w :
    (truthy (some "kelly") = true)
    ∧ (truthy (some "skus.txt") = true)
    ∧ Tok.flag "--skus"
        ∈ buildArgsT true ⟨some "kelly", some "skus.txt", none, false, false, false, false⟩
    ∧ Tok.flag "--skus-file"
        ∉ buildArgsT true ⟨some "kelly", some "skus.txt", none, false, false, false, false⟩ :=
  ⟨rfl, rfl,
   ((args_input_flags_exclusive true
      ⟨some "kelly", some "skus.txt", none, false, false, false, false⟩).2.2 rfl rfl).1,
   ((args_input_flags_exclusive true
      ⟨some "kelly", some "skus.txt", none, false, false, false, false⟩).2.2 rfl rfl).2⟩

/-- C6, counterexample.  The stderr handler does not split a chunk into
lines: the chunk `"a\nb"` is forwarded as the single message `"a\nb"`,
not as the two per-line messages the claim requires. -/
theorem stderr_not_split_cex :
    stderrStep (J := Unit) "a\nb".toList = [Msg.errLog "a\nb".toList]
    ∧ stderrLinesSpec (J := Unit) "a\nb".toList
        = [Msg.errLog "a".toList, Msg.errLog "b".toList]
    ∧ stderrStep (J := Unit) "a\nb".toList ≠ stderrLinesSpec (J := Unit) "a\nb".toList := by
  refine ⟨by decide, by decide, by decide⟩
